import Mathlib

/-!
Verification of `src/project1-llm-council-cfb/src/loaders.py`.

The file embeds the three components of the loader module:

* `build_agent_prompt_text` — pure concatenation of a system prompt, a
  game-data blob and a fixed council instruction;
* `safe_json_load` — strict JSON parsing with an optional repair fallback,
  returning `none` instead of raising;
* `parse_council_df` — per-row extraction of normalized council records.

Python exceptions are modelled with `Option` / `Except`: a fallible step
returns `none` / `.error` exactly where the Python code raises.  Python's
`json.loads` is an external library; it is modelled here by an executable
recursive-descent parser (`jsonLoads`) over the JSON grammar the loader
relies on.  JSON numbers are modelled as exact decimal literals
(mantissa and number of fractional digits), not floating point; exponent
notation is outside the model.  Python dicts coming out of `json.loads`
are modelled as association lists in source order; key lookup takes the
last binding, matching dict construction semantics.  The optional
`json_repair` import is modelled as an injected capability
`Option (String → Option String)`.
-/

/-- JSON values as produced by `json.loads`: null, booleans, numbers,
strings, arrays and objects.  `num m e` denotes the decimal literal whose
digits form the integer `m` with `e` of them after the decimal point
(so `0.63` is `num 63 2` and `27` is `num 27 0`). -/
inductive JsonValue : Type where
  | null : JsonValue
  | bool : Bool → JsonValue
  | num : Int → Nat → JsonValue
  | str : String → JsonValue
  | arr : List JsonValue → JsonValue
  | obj : List (String × JsonValue) → JsonValue

/-- The double-quote character. -/
def quoteC : Char := Char.ofNat 34

/-- The backslash character. -/
def bslashC : Char := Char.ofNat 92

/-- The opening-brace character. -/
def lbraceC : Char := Char.ofNat 123

/-- The closing-brace character. -/
def rbraceC : Char := Char.ofNat 125

/-- JSON insignificant whitespace. -/
def isWsChar (c : Char) : Bool := c = ' ' || c = '\n' || c = '\t' || c = '\r'

/-- Drop leading JSON whitespace. -/
def skipWs : List Char → List Char
  | [] => []
  | c :: rest => if isWsChar c then skipWs rest else c :: rest

/-- Numeric value of a decimal digit character. -/
def digitVal (c : Char) : Nat := c.toNat - 48

/-- The decimal digit character for a value below ten. -/
def digitChar : Nat → Char
  | 0 => '0' | 1 => '1' | 2 => '2' | 3 => '3' | 4 => '4'
  | 5 => '5' | 6 => '6' | 7 => '7' | 8 => '8' | _ => '9'

/-- Resolution of a JSON string escape (the character after a backslash). -/
def unescapeChar (c : Char) : Option Char :=
  if c = quoteC then some quoteC
  else if c = bslashC then some bslashC
  else if c = '/' then some '/'
  else if c = 'n' then some '\n'
  else if c = 't' then some '\t'
  else if c = 'r' then some '\r'
  else if c = 'b' then some (Char.ofNat 8)
  else if c = 'f' then some (Char.ofNat 12)
  else none

mutual

/-- Parse the body of a JSON string after the opening quote; returns the
decoded characters and the input remaining after the closing quote.
Raw control characters are rejected, as in strict `json.loads`. -/
def parseStringBody : List Char → Option (List Char × List Char)
  | [] => none
  | c :: rest =>
    if c = quoteC then some ([], rest)
    else if c = bslashC then parseStringEsc rest
    else if 32 ≤ c.toNat then (parseStringBody rest).map (fun p => (c :: p.1, p.2))
    else none

/-- Parse the remainder of a string body just after a backslash. -/
def parseStringEsc : List Char → Option (List Char × List Char)
  | [] => none
  | e :: rest =>
    match unescapeChar e with
    | none => none
    | some u => (parseStringBody rest).map (fun p => (u :: p.1, p.2))

end

/-- Consume a maximal run of decimal digits, folding them onto `acc`;
returns the accumulated value, the number of digits consumed, and the rest. -/
def parseDigitsAux : Nat → List Char → Nat × Nat × List Char
  | acc, [] => (acc, 0, [])
  | acc, c :: rest =>
    if c.isDigit then
      let t := parseDigitsAux (acc * 10 + digitVal c) rest
      (t.1, t.2.1 + 1, t.2.2)
    else (acc, 0, c :: rest)

/-- Whether a character list starts with the given character. -/
def headIs : List Char → Char → Bool
  | [], _ => false
  | x :: _, c => x = c

/-- Apply an optional leading minus sign to a natural number. -/
def intOfSign (neg : Bool) (n : Nat) : Int := if neg then -(n : Int) else (n : Int)

/-- Parse a JSON number literal (optional sign, digits, optional fraction). -/
def parseNumber (l : List Char) : Option (JsonValue × List Char) :=
  let neg := headIs l '-'
  let l1 := if neg then l.tail else l
  let t1 := parseDigitsAux 0 l1
  if t1.2.1 = 0 then none
  else
    let r1 := t1.2.2
    if headIs r1 '.' then
      let t2 := parseDigitsAux 0 r1.tail
      if t2.2.1 = 0 then none
      else some (.num (intOfSign neg (t1.1 * 10 ^ t2.2.1 + t2.1)) t2.2.1, t2.2.2)
    else some (.num (intOfSign neg t1.1) 0, r1)

/-- Match an expected literal character sequence, returning the rest. -/
def expectChars : List Char → List Char → Option (List Char)
  | [], l => some l
  | _ :: _, [] => none
  | p :: ps, c :: rest => if c = p then expectChars ps rest else none

mutual

/-- Parse one JSON value; `fuel` bounds the recursion and is decremented on
every recursive call.  Returns the value and the unconsumed input. -/
def parseValue : Nat → List Char → Option (JsonValue × List Char)
  | 0, _ => none
  | fuel + 1, l =>
    match skipWs l with
    | [] => none
    | c :: rest =>
      if c = quoteC then
        (parseStringBody rest).map (fun p => (.str (String.mk p.1), p.2))
      else if c = '[' then
        let r := skipWs rest
        if headIs r ']' then some (.arr [], r.tail)
        else (parseElems fuel rest).map (fun p => (.arr p.1, p.2))
      else if c = lbraceC then
        let r := skipWs rest
        if headIs r rbraceC then some (.obj [], r.tail)
        else (parseFields fuel rest).map (fun p => (.obj p.1, p.2))
      else if c = 'n' then (expectChars ['u', 'l', 'l'] rest).map (fun r => (.null, r))
      else if c = 't' then (expectChars ['r', 'u', 'e'] rest).map (fun r => (.bool true, r))
      else if c = 'f' then (expectChars ['a', 'l', 's', 'e'] rest).map (fun r => (.bool false, r))
      else parseNumber (c :: rest)

/-- Parse the non-empty element list of a JSON array, up to and including
the closing bracket. -/
def parseElems : Nat → List Char → Option (List JsonValue × List Char)
  | 0, _ => none
  | fuel + 1, l =>
    (parseValue fuel l).bind (fun p =>
      let r := skipWs p.2
      if headIs r ',' then (parseElems fuel r.tail).map (fun q => (p.1 :: q.1, q.2))
      else if headIs r ']' then some ([p.1], r.tail)
      else none)

/-- Parse the non-empty field list of a JSON object, up to and including
the closing brace. -/
def parseFields : Nat → List Char → Option (List (String × JsonValue) × List Char)
  | 0, _ => none
  | fuel + 1, l =>
    match skipWs l with
    | [] => none
    | c :: rest =>
      if c = quoteC then
        (parseStringBody rest).bind (fun pk =>
          let r1 := skipWs pk.2
          if headIs r1 ':' then
            (parseValue fuel r1.tail).bind (fun pv =>
              let r3 := skipWs pv.2
              if headIs r3 ',' then
                (parseFields fuel r3.tail).map
                  (fun q => ((String.mk pk.1, pv.1) :: q.1, q.2))
              else if headIs r3 rbraceC then some ([(String.mk pk.1, pv.1)], r3.tail)
              else none)
          else none)
      else none

end

/-- Model of strict `json.loads`: parse one JSON document and require that
only whitespace remains.  Any failure is `none` (the caller catches the
exception).  The fuel `s.length + 1` dominates the recursion depth needed
for any input whose parse succeeds. -/
def jsonLoads (s : String) : Option JsonValue :=
  match parseValue (s.length + 1) s.data with
  | none => none
  | some p => if (skipWs p.2).isEmpty then some p.1 else none

/-- Model of `safe_json_load` from `loaders.py`.  `repairCap` is the
optional `json_repair.repair_json` import: `none` when the import failed,
and otherwise a repair function whose own failure (an exception) is
`none`.  Strict parsing is attempted first; on failure, if the repair
capability is present, the repaired text is re-parsed strictly; every
failure path yields `none` rather than an error. -/
def safe_json_load (repairCap : Option (String → Option String)) (s : String) :
    Option JsonValue :=
  match jsonLoads s with
  | some v => some v
  | none =>
    match repairCap with
    | none => none
    | some repair =>
      match repair s with
      | none => none
      | some repaired => jsonLoads repaired

/-- One row of the raw council dataframe.  `row.get("model", None)` and
`row.get("completion_text", "")` are duck-typed lookups, so each field is
optional; `none` models a missing column. -/
structure RawRow : Type where
  model : Option String
  completion_text : Option String

/-- Python exceptions that can escape the extraction code. -/
inductive PyError : Type where
  | attributeError : PyError

/-- A normalized council record.  The two constructors are the two row
schemas produced by `parse_council_df`: `invalid` is the minimal record
`\x7bmodel, raw, valid_json: False\x7d` and carries nothing else; `valid` is the
full record with `valid_json: True`.  Field values are the Python values
stored in the dict, with Python `None` identified with JSON null. -/
inductive CouncilRecord : Type where
  | invalid (model : Option String) (raw : String)
  | valid (model : Option String)
      (winner_team_id winner_team_name : JsonValue)
      (score_team_1 score_team_2 : JsonValue)
      (confidence_winner confidence_score_band : JsonValue)
      (key_factors risk_factors : JsonValue)

/-- The `model` value stored in a record (present in both schemas). -/
def CouncilRecord.modelOf : CouncilRecord → Option String
  | .invalid m _ => m
  | .valid m _ _ _ _ _ _ _ _ => m

/-- The `key_factors` value of a record, when the record has that field. -/
def CouncilRecord.keyFactorsOf : CouncilRecord → Option JsonValue
  | .invalid _ _ => none
  | .valid _ _ _ _ _ _ _ kf _ => some kf

/-- The `risk_factors` value of a record, when the record has that field. -/
def CouncilRecord.riskFactorsOf : CouncilRecord → Option JsonValue
  | .invalid _ _ => none
  | .valid _ _ _ _ _ _ _ _ rf => some rf

/-- The `score_team_1` value of a record, when the record has that field. -/
def CouncilRecord.scoreTeam1Of : CouncilRecord → Option JsonValue
  | .invalid _ _ => none
  | .valid _ _ _ s1 _ _ _ _ _ => some s1

/-- The `score_team_2` value of a record, when the record has that field. -/
def CouncilRecord.scoreTeam2Of : CouncilRecord → Option JsonValue
  | .invalid _ _ => none
  | .valid _ _ _ _ s2 _ _ _ _ => some s2

/-- Whether a record is the `valid_json: True` schema. -/
def CouncilRecord.isValidJson : CouncilRecord → Bool
  | .invalid _ _ => false
  | .valid _ _ _ _ _ _ _ _ _ => true

/-- Dict lookup, `d.get(k)`: the last binding for `k` wins, matching how
`json.loads` builds a Python dict from object fields in source order. -/
def jget : List (String × JsonValue) → String → Option JsonValue
  | [], _ => none
  | (k1, v) :: rest, k =>
    match jget rest k with
    | some r => some r
    | none => if k1 = k then some v else none

/-- Python truthiness of a parsed JSON value (`bool(x)`). -/
def JsonValue.truthy : JsonValue → Bool
  | .null => false
  | .bool b => b
  | .num m _ => decide (m ≠ 0)
  | .str s => decide (s ≠ "")
  | .arr xs => !xs.isEmpty
  | .obj kvs => !kvs.isEmpty

/-- Whether a parsed JSON value is a Python dict (`isinstance(x, dict)`). -/
def JsonValue.isObjB : JsonValue → Bool
  | .obj _ => true
  | _ => false

/-- The line `projected_score = data.get("projected_score", \x7b\x7d) or \x7b\x7d`:
the stored value when it is truthy, and the empty dict otherwise (also
when the key is absent, via the `.get` default). -/
def projected_score_of (kvs : List (String × JsonValue)) : JsonValue :=
  if ((jget kvs "projected_score").getD .null).truthy then
    (jget kvs "projected_score").getD .null
  else .obj []

/-- The body of the row loop of `parse_council_df`, for one row.
`row.get` defaults are applied, `safe_json_load` is run on the completion
text, and either the minimal invalid record or the full record is built.
`projected_score.get("1")` is an attribute access on the value of
`projected_score_of`; when that value is truthy but not a dict the Python
code raises `AttributeError`, modelled by `.error`. -/
def parse_council_row (repairCap : Option (String → Option String)) (row : RawRow) :
    Except PyError CouncilRecord :=
  match safe_json_load repairCap (row.completion_text.getD "") with
  | some (.obj kvs) =>
    match projected_score_of kvs with
    | .obj pkvs =>
      .ok (.valid row.model
        ((jget kvs "winner_team_id").getD .null)
        ((jget kvs "winner_team_name").getD .null)
        ((jget pkvs "1").getD .null)
        ((jget pkvs "2").getD .null)
        ((jget kvs "confidence_winner").getD .null)
        ((jget kvs "confidence_score_band").getD .null)
        ((jget kvs "key_factors").getD (.arr []))
        ((jget kvs "risk_factors").getD (.arr [])))
    | _ => .error .attributeError
  | some _ => .ok (.invalid row.model (row.completion_text.getD ""))
  | none => .ok (.invalid row.model (row.completion_text.getD ""))

/-- Model of `parse_council_df`: the row loop.  An exception raised while
processing a row aborts the whole call, discarding all records built so
far, exactly as the Python `for` loop does. -/
def parse_council_df (repairCap : Option (String → Option String))
    (rows : List RawRow) : Except PyError (List CouncilRecord) :=
  rows.mapM (parse_council_row repairCap)

/-- The fixed section header labeling the embedded game data. -/
def gameDataHeader : String := "----- GAME_DATA (TOON) -----\n"

/-- The fixed two-line council instruction ending every prompt. -/
def councilInstruction : String :=
  "You are part of a council predicting the outcome of this game.\nReturn ONLY a single JSON object matching the agreed schema."

/-- Model of `build_agent_prompt_text`: pure string concatenation of the
system prompt, a blank line, the game-data header, the game data, a blank
line, and the fixed council instruction. -/
def build_agent_prompt_text (agent_system_prompt game_data_text : String) : String :=
  agent_system_prompt ++ "\n\n" ++ gameDataHeader ++ game_data_text ++ "\n\n"
    ++ councilInstruction

/-- Decimal digit characters of `n`, most significant first; the fuel
argument bounds the number of digits. -/
def natDigitsAux : Nat → Nat → List Char
  | 0, _ => []
  | fuel + 1, n =>
    if n < 10 then [digitChar n] else natDigitsAux fuel (n / 10) ++ [digitChar (n % 10)]

/-- Decimal digit characters of `n`, most significant first. -/
def natDigits (n : Nat) : List Char := natDigitsAux (n + 1) n

/-- Exactly `e` decimal digit characters with value `fp`, zero padded. -/
def padDigits : Nat → Nat → List Char
  | 0, _ => []
  | e + 1, fp => digitChar (fp / 10 ^ e) :: padDigits e (fp % 10 ^ e)

/-- Serialize the decimal literal `num m e`: optional sign, integer
digits, and for a positive scale a point followed by `e` padded digits. -/
def renderNum (m : Int) (e : Nat) : List Char :=
  let sign := if m < 0 then ['-'] else []
  let na := m.natAbs
  if e = 0 then sign ++ natDigits na
  else sign ++ natDigits (na / 10 ^ e) ++ '.' :: padDigits e (na % 10 ^ e)

/-- A character a serialized string round-trips: printable, or one of the
three escaped control characters. -/
def cleanChar (c : Char) : Bool := 32 ≤ c.toNat || c = '\n' || c = '\t' || c = '\r'

/-- Serialize one character of a JSON string, escaping as needed. -/
def escChar (c : Char) : List Char :=
  if c = quoteC then [bslashC, quoteC]
  else if c = bslashC then [bslashC, bslashC]
  else if c = '\n' then [bslashC, 'n']
  else if c = '\t' then [bslashC, 't']
  else if c = '\r' then [bslashC, 'r']
  else [c]

/-- Serialize the characters of a JSON string body. -/
def escapeChars : List Char → List Char
  | [] => []
  | c :: cs => escChar c ++ escapeChars cs

mutual

/-- Serialize a JSON value to its canonical text. -/
def renderV : JsonValue → List Char
  | .null => "null".data
  | .bool true => "true".data
  | .bool false => "false".data
  | .num m e => renderNum m e
  | .str s => quoteC :: escapeChars s.data ++ [quoteC]
  | .arr [] => ['[', ']']
  | .arr (x :: xs) => '[' :: renderV x ++ renderElemsRest xs
  | .obj [] => [lbraceC, rbraceC]
  | .obj (f :: fs) => lbraceC :: renderField f ++ renderFieldsRest fs

/-- Serialize one object field: quoted key, colon, value. -/
def renderField : String × JsonValue → List Char
  | (k, v) => quoteC :: escapeChars k.data ++ quoteC :: ':' :: renderV v

/-- Serialize the remaining elements of a non-empty array, starting with
the separator before each and ending with the closing bracket. -/
def renderElemsRest : List JsonValue → List Char
  | [] => [']']
  | x :: xs => ',' :: renderV x ++ renderElemsRest xs

/-- Serialize the remaining fields of a non-empty object, starting with
the separator before each and ending with the closing brace. -/
def renderFieldsRest : List (String × JsonValue) → List Char
  | [] => [rbraceC]
  | f :: fs => ',' :: renderField f ++ renderFieldsRest fs

end

/-- Serialize a JSON value to a string. -/
def renderJson (v : JsonValue) : String := String.mk (renderV v)

mutual

/-- All string scalars and object keys in the value round-trip. -/
def cleanV : JsonValue → Bool
  | .null => true
  | .bool _ => true
  | .num _ _ => true
  | .str s => s.data.all cleanChar
  | .arr xs => cleanL xs
  | .obj kvs => cleanF kvs

/-- `cleanV` on every element of an array. -/
def cleanL : List JsonValue → Bool
  | [] => true
  | x :: xs => cleanV x && cleanL xs

/-- Clean keys and `cleanV` values on every field of an object. -/
def cleanF : List (String × JsonValue) → Bool
  | [] => true
  | f :: fs => f.1.data.all cleanChar && cleanV f.2 && cleanF fs

end

mutual

/-- Fuel sufficient for `parseValue` to parse the serialization of a value. -/
def needV : JsonValue → Nat
  | .arr xs => 1 + needL xs
  | .obj kvs => 1 + needF kvs
  | _ => 1

/-- Fuel sufficient for `parseElems` on a serialized element list. -/
def needL : List JsonValue → Nat
  | [] => 0
  | x :: xs => 1 + max (needV x) (needL xs)

/-- Fuel sufficient for `parseFields` on a serialized field list. -/
def needF : List (String × JsonValue) → Nat
  | [] => 0
  | f :: fs => 1 + max (needV f.2) (needF fs)

end

/-- The numeric value of a digit-character list, folded onto `acc`
exactly as `parseDigitsAux` folds it. -/
def digitsVal : List Char → Nat → Nat
  | [], acc => acc
  | c :: cs, acc => digitsVal cs (acc * 10 + digitVal c)

/-- Whether a character list starts with a decimal digit. -/
def headDigit : List Char → Bool
  | [] => false
  | c :: _ => c.isDigit

/-- A character that can legally start a serialized number inside the
value grammar: not whitespace, and none of the value-dispatch characters
of `parseValue`. -/
def notSpecialHead (c : Char) : Bool :=
  !(isWsChar c) && !(c = quoteC) && !(c = '[') && !(c = lbraceC)
    && !(c = 'n') && !(c = 't') && !(c = 'f') && !(c = ']') && !(c = rbraceC)

/-- The characters after a serialized number may not extend it: the next
character, if any, is neither a digit nor a decimal point. -/
def nextOk (l : List Char) : Bool :=
  match l with
  | [] => true
  | c :: _ => !(c.isDigit || c = '.')

/-- The completion text of Scenario A of the specification. -/
def scenarioAText : String :=
  "\x7b\"winner_team_id\": 1, \"winner_team_name\": \"Texas\", \"projected_score\": \x7b\"1\": 27, \"2\": 24\x7d, \"confidence_winner\": 0.63, \"confidence_score_band\": \"medium\", \"key_factors\": [\"offense\"], \"risk_factors\": []\x7d"

set_option maxRecDepth 100000


theorem modelOf_of_ok (cap : Option (String → Option String)) (row : RawRow)
    (rec : CouncilRecord) (h : parse_council_row cap row = .ok rec) :
    rec.modelOf = row.model := by
  unfold parse_council_row at h
  split at h
  · split at h
    · cases h; rfl
    · cases h
  · cases h; rfl
  · cases h; rfl

theorem row_invalid_of_nondict (cap : Option (String → Option String)) (row : RawRow)
    (h : safe_json_load cap (row.completion_text.getD "") = none ∨
      ∃ v, safe_json_load cap (row.completion_text.getD "") = some v ∧ v.isObjB = false) :
    parse_council_row cap row = .ok (.invalid row.model (row.completion_text.getD "")) := by
  unfold parse_council_row
  rcases h with h | ⟨v, hv, hobj⟩
  · rw [h]
  · rw [hv]
    rcases v with _ | b | ⟨m, e⟩ | s | xs | kvs
    · rfl
    · rfl
    · rfl
    · rfl
    · rfl
    · cases hobj

/-- Claim C5: every input row whose completion text fails to parse or
parses to a non-dict yields exactly the minimal failure record
`\x7bmodel, raw, valid_json: false\x7d`, with no other fields present, both at the
row level and as the sole record of a single-row batch. -/
theorem parse_council_nondict_minimal (cap : Option (String → Option String)) (row : RawRow)
    (h : safe_json_load cap (row.completion_text.getD "") = none ∨
      ∃ v, safe_json_load cap (row.completion_text.getD "") = some v ∧ v.isObjB = false) :
    parse_council_row cap row = .ok (.invalid row.model (row.completion_text.getD "")) ∧
    parse_council_df cap [row] = .ok [.invalid row.model (row.completion_text.getD "")] := by
  have h1 := row_invalid_of_nondict cap row h
  refine ⟨h1, ?_⟩
  simp [parse_council_df, List.mapM, List.mapM.loop, h1]

theorem parse_council_nondict_minimal_witness :
    parse_council_row none { model := some "m", completion_text := some "[1, 2]" } =
      .ok (.invalid (some "m") "[1, 2]") :=
  (parse_council_nondict_minimal none
    { model := some "m", completion_text := some "[1, 2]" }
    (Or.inr ⟨.arr [.num 1 0, .num 2 0], rfl, rfl⟩)).1

/-- Claim C8: a missing `model` field is treated as absent and a missing
`completion_text` field exactly as the empty string, and the model value
is carried through unchanged into the output record in both the valid
and the invalid branch. -/
theorem parse_council_row_duck_typing (cap : Option (String → Option String))
    (m : Option String) (ct : Option String) :
    parse_council_row cap { model := m, completion_text := none } =
      parse_council_row cap { model := m, completion_text := some "" } ∧
    (∀ rec, parse_council_row cap { model := m, completion_text := ct } = .ok rec →
      rec.modelOf = m) :=
  ⟨rfl, fun rec h => modelOf_of_ok cap { model := m, completion_text := ct } rec h⟩

theorem parse_council_row_duck_typing_witness :
    CouncilRecord.modelOf
      (.valid (some "x") .null .null .null .null .null .null (.arr []) (.arr [])) =
      some "x" :=
  (parse_council_row_duck_typing none (some "x") (some "\x7b\x7d")).2 _ rfl


/-- Helper: on a row whose completion text parses to a dict, the row loop
reduces to the projected-score dispatch. -/
theorem parse_council_row_obj (cap : Option (String → Option String)) (row : RawRow)
    (kvs : List (String × JsonValue))
    (h1 : safe_json_load cap (row.completion_text.getD "") = some (.obj kvs)) :
    parse_council_row cap row =
      match projected_score_of kvs with
      | .obj pkvs =>
        .ok (.valid row.model
          ((jget kvs "winner_team_id").getD .null)
          ((jget kvs "winner_team_name").getD .null)
          ((jget pkvs "1").getD .null)
          ((jget pkvs "2").getD .null)
          ((jget kvs "confidence_winner").getD .null)
          ((jget kvs "confidence_score_band").getD .null)
          ((jget kvs "key_factors").getD (.arr []))
          ((jget kvs "risk_factors").getD (.arr [])))
      | _ => .error .attributeError := by
  unfold parse_council_row
  rw [h1]

/-- Claim C9: when the completion text parses to a dict whose
`projected_score` entry is absent or falsy (null, 0, empty string, empty
list, empty dict, false), the row yields a `valid_json: true` record with
`score_team_1` and `score_team_2` both null. -/
theorem parse_council_row_falsy_projected_score (cap : Option (String → Option String))
    (row : RawRow) (kvs : List (String × JsonValue))
    (h1 : safe_json_load cap (row.completion_text.getD "") = some (.obj kvs))
    (h2 : ((jget kvs "projected_score").getD .null).truthy = false) :
    parse_council_row cap row = .ok (.valid row.model
      ((jget kvs "winner_team_id").getD .null)
      ((jget kvs "winner_team_name").getD .null)
      .null .null
      ((jget kvs "confidence_winner").getD .null)
      ((jget kvs "confidence_score_band").getD .null)
      ((jget kvs "key_factors").getD (.arr []))
      ((jget kvs "risk_factors").getD (.arr []))) := by
  rw [parse_council_row_obj cap row kvs h1]
  have hps : projected_score_of kvs = .obj [] := by
    simp [projected_score_of, h2]
  rw [hps]
  rfl

theorem parse_council_row_falsy_projected_score_witness :
    parse_council_row none { model := none, completion_text := some "\x7b\"projected_score\": 0\x7d" } =
      .ok (.valid none .null .null .null .null .null .null (.arr []) (.arr [])) :=
  parse_council_row_falsy_projected_score none
    { model := none, completion_text := some "\x7b\"projected_score\": 0\x7d" }
    [("projected_score", .num 0 0)] rfl rfl

/-- Claim C10: when the completion text parses to a dict, any record the
row yields carries `key_factors` / `risk_factors` exactly as
`data.get(key, [])` computes them: a key present with value null gives
null, and the empty-list default applies only when the key is absent. -/
theorem parse_council_row_factors_null_vs_absent (cap : Option (String → Option String))
    (row : RawRow) (kvs : List (String × JsonValue))
    (h1 : safe_json_load cap (row.completion_text.getD "") = some (.obj kvs)) :
    ∀ rec, parse_council_row cap row = .ok rec →
      rec.keyFactorsOf = some ((jget kvs "key_factors").getD (.arr [])) ∧
      rec.riskFactorsOf = some ((jget kvs "risk_factors").getD (.arr [])) ∧
      (jget kvs "key_factors" = some .null → rec.keyFactorsOf = some .null) ∧
      (jget kvs "key_factors" = none → rec.keyFactorsOf = some (.arr [])) ∧
      (jget kvs "risk_factors" = some .null → rec.riskFactorsOf = some .null) ∧
      (jget kvs "risk_factors" = none → rec.riskFactorsOf = some (.arr [])) := by
  intro rec h
  rw [parse_council_row_obj cap row kvs h1] at h
  rcases hq : projected_score_of kvs with _ | b | ⟨mm, ee⟩ | ss | xs | pkvs
  all_goals rw [hq] at h
  case obj =>
    cases h
    refine ⟨rfl, rfl, ?_, ?_, ?_, ?_⟩
    · intro hk; simp [CouncilRecord.keyFactorsOf, hk]
    · intro hk; simp [CouncilRecord.keyFactorsOf, hk]
    · intro hk; simp [CouncilRecord.riskFactorsOf, hk]
    · intro hk; simp [CouncilRecord.riskFactorsOf, hk]
  all_goals cases h

theorem parse_council_row_factors_null_vs_absent_witness :
    CouncilRecord.keyFactorsOf
      (.valid none .null .null .null .null .null .null .null (.arr [])) = some .null ∧
    CouncilRecord.riskFactorsOf
      (.valid none .null .null .null .null .null .null .null (.arr [])) = some (.arr []) := by
  have H := parse_council_row_factors_null_vs_absent none
    { model := none, completion_text := some "\x7b\"key_factors\": null\x7d" }
    [("key_factors", .null)] rfl
    (.valid none .null .null .null .null .null .null .null (.arr [])) rfl
  exact ⟨H.2.2.1 rfl, H.2.1⟩

/-- Claim C2: `safe_json_load` never raises (it is a total function into
`Option`); when strict parsing fails it returns `none` if the repair
capability is absent, and also when repair raises or the repaired text
fails to re-parse; concretely, non-JSON garbage with no repair capability
gives `none`. -/
theorem safe_json_load_absent_on_failure (s : String) (hs : jsonLoads s = none) :
    safe_json_load none s = none ∧
    (∀ repair : String → Option String,
      (∀ r, repair s = some r → jsonLoads r = none) →
      safe_json_load (some repair) s = none) ∧
    safe_json_load none "not json at all" = none := by
  refine ⟨?_, ?_, rfl⟩
  · unfold safe_json_load
    simp [hs]
  · intro repair hr
    unfold safe_json_load
    simp only [hs]
    rcases hrep : repair s with _ | r
    · simp [hrep]
    · simp [hrep, hr r hrep]

theorem safe_json_load_absent_on_failure_witness :
    safe_json_load none "%%% garbage" = none ∧
    safe_json_load (some (fun _ => some "still not json")) "%%% garbage" = none := by
  refine ⟨(safe_json_load_absent_on_failure "%%% garbage" rfl).1, ?_⟩
  refine (safe_json_load_absent_on_failure "%%% garbage" rfl).2.1
    (fun _ => some "still not json") ?_
  intro r hr
  injection hr with h
  rw [Eq.symm h]
  rfl

/-- Claim C1 (failing-input evaluation): on a row whose completion text is
valid JSON with a truthy non-dict `projected_score` (here a list), the
Python code calls `.get` on a list and raises `AttributeError`; the
exception escapes `parse_council_df` and aborts the batch, contradicting
the claim that no exception can escape. -/
theorem parse_council_df_raises_on_truthy_nondict_score :
    parse_council_df none
        [{ model := none, completion_text := some "\x7b\"projected_score\": [1, 2]\x7d" }] =
      .error .attributeError := by
  rfl

/-- Claim C4 (failing-input evaluation): a two-row batch whose second row
has a truthy non-dict `projected_score` (here a string) produces no
records at all — the `AttributeError` aborts the loop and the first
row's record is lost — contradicting one-record-per-row, order
preservation and no-row-dropped. -/
theorem parse_council_df_batch_aborted_by_one_row :
    parse_council_df none
        [{ model := some "m1", completion_text := some "\x7b\"winner_team_id\": 1\x7d" },
         { model := some "m2", completion_text := some "\x7b\"projected_score\": \"7-3\"\x7d" }] =
      .error .attributeError := by
  rfl

/-- Claim C6: Scenario A — the specified completion text yields the full
`valid_json: true` record with winner 1 / "Texas", scores 27 and 24 read
from the nested `projected_score` mapping at the literal string keys "1"
and "2", confidence 0.63, band "medium", and the two factor lists. -/
theorem parse_council_df_scenario_a :
    parse_council_df none [{ model := some "agent", completion_text := some scenarioAText }] =
      .ok [.valid (some "agent") (.num 1 0) (.str "Texas") (.num 27 0) (.num 24 0)
        (.num 63 2) (.str "medium") (.arr [.str "offense"]) (.arr [])] := by
  rfl

/-- Claim C7: the assembled prompt is exactly the system prompt, a blank
line, the game-data header, the game data, a blank line, and the fixed
two-line council instruction; hence the system prompt precedes the
header, the game data follows it, the prompt ends with the instruction,
and the output is a pure function of the two inputs (byte-for-byte
deterministic). -/
theorem build_agent_prompt_text_layout (s d : String) :
    build_agent_prompt_text s d =
      s ++ "\n\n" ++ gameDataHeader ++ d ++ "\n\n" ++ councilInstruction ∧
    (∃ pre, build_agent_prompt_text s d = pre ++ councilInstruction) ∧
    (∃ mid, build_agent_prompt_text s d = s ++ (mid ++ (d ++ ("\n\n" ++ councilInstruction)))) := by
  refine ⟨rfl, ⟨s ++ "\n\n" ++ gameDataHeader ++ d ++ "\n\n", rfl⟩,
    ⟨"\n\n" ++ gameDataHeader, ?_⟩⟩
  simp [build_agent_prompt_text, String.append_assoc]


/-- The ten digit characters produced by `digitChar`. -/
theorem digitChar_isDigit (d : Nat) : (digitChar d).isDigit = true := by
  rcases d with _|_|_|_|_|_|_|_|_|d <;> rfl

theorem digitVal_digitChar (d : Nat) (h : d < 10) : digitVal (digitChar d) = d := by
  rcases d with _|_|_|_|_|_|_|_|_|d
  case succ =>
    have hd : d = 0 := by omega
    subst hd
    rfl
  all_goals rfl

theorem digitChar_notSpecialHead (d : Nat) : notSpecialHead (digitChar d) = true := by
  rcases d with _|_|_|_|_|_|_|_|_|d <;> rfl

theorem digitChar_ne_minus (d : Nat) : digitChar d ≠ '-' := by
  rcases d with _|_|_|_|_|_|_|_|_|d
  case succ => exact (by decide : ('9' : Char) ≠ '-')
  all_goals decide

theorem digitChar_not_ws (d : Nat) : isWsChar (digitChar d) = false := by
  rcases d with _|_|_|_|_|_|_|_|_|d <;> rfl

/-- `parseDigitsAux` consumes exactly a leading digit run. -/
theorem parseDigitsAux_append (ds : List Char) :
    ∀ acc rest, (∀ c ∈ ds, c.isDigit = true) → headDigit rest = false →
      parseDigitsAux acc (ds ++ rest) = (digitsVal ds acc, ds.length, rest) := by
  induction ds with
  | nil =>
    intro acc rest _ hrest
    cases rest with
    | nil => rfl
    | cons c l =>
      simp only [List.nil_append, parseDigitsAux, digitsVal, List.length_nil]
      simp only [headDigit] at hrest
      simp [hrest]
  | cons c ds ih =>
    intro acc rest hds hrest
    have hc : c.isDigit = true := hds c (List.mem_cons_self c ds)
    simp only [List.cons_append, parseDigitsAux, hc, if_true, List.append_eq]
    rw [ih (acc * 10 + digitVal c) rest (fun x hx => hds x (List.mem_cons_of_mem c hx)) hrest]
    simp [digitsVal]

theorem digitsVal_append (xs ys : List Char) :
    ∀ acc, digitsVal (xs ++ ys) acc = digitsVal ys (digitsVal xs acc) := by
  induction xs with
  | nil => intro acc; rfl
  | cons c xs ih => intro acc; simp only [List.cons_append, digitsVal]; exact ih _

theorem natDigitsAux_digits (fuel : Nat) :
    ∀ n c, c ∈ natDigitsAux fuel n → c.isDigit = true := by
  induction fuel with
  | zero => intro n c hc; simp [natDigitsAux] at hc
  | succ fuel ih =>
    intro n c hc
    unfold natDigitsAux at hc
    by_cases h : n < 10
    · simp [h] at hc
      subst hc
      exact digitChar_isDigit n
    · simp [h, List.mem_append] at hc
      rcases hc with hc | hc
      · exact ih _ c hc
      · subst hc
        exact digitChar_isDigit _

theorem natDigitsAux_val (fuel : Nat) :
    ∀ n acc, n < 10 ^ fuel →
      digitsVal (natDigitsAux fuel n) acc = acc * 10 ^ (natDigitsAux fuel n).length + n := by
  induction fuel with
  | zero =>
    intro n acc h
    have hn : n = 0 := by simpa using h
    subst hn
    simp [natDigitsAux, digitsVal]
  | succ fuel ih =>
    intro n acc h
    unfold natDigitsAux
    by_cases hlt : n < 10
    · simp [hlt, digitsVal, digitVal_digitChar n hlt]
    · simp only [hlt, if_false]
      rw [digitsVal_append]
      have hdiv : n / 10 < 10 ^ fuel := by
        rw [pow_succ] at h
        omega
      rw [ih (n / 10) acc hdiv]
      simp only [digitsVal]
      rw [digitVal_digitChar (n % 10) (by omega)]
      rw [List.length_append, List.length_singleton, pow_succ]
      have hmod := Nat.div_add_mod n 10
      generalize (10 : Nat) ^ (natDigitsAux fuel (n / 10)).length = P at *
      ring_nf
      nlinarith [hmod]

theorem natDigitsAux_head (fuel : Nat) :
    ∀ n, 0 < fuel → ∃ d l, natDigitsAux fuel n = digitChar d :: l := by
  induction fuel with
  | zero => intro n h; omega
  | succ fuel ih =>
    intro n _
    unfold natDigitsAux
    by_cases hlt : n < 10
    · exact ⟨n, [], by simp [hlt]⟩
    · rcases Nat.eq_zero_or_pos fuel with hf | hf
      · subst hf
        exact ⟨n % 10, [], by simp [hlt, natDigitsAux]⟩
      · obtain ⟨d, l, hd⟩ := ih (n / 10) hf
        refine ⟨d, l ++ [digitChar (n % 10)], ?_⟩
        simp [hlt, hd]

theorem nat_lt_ten_pow_succ (n : Nat) : n < 10 ^ (n + 1) := by
  calc n < 10 ^ n := Nat.lt_pow_self (by norm_num) n
  _ ≤ 10 ^ (n + 1) := Nat.pow_le_pow_right (by norm_num) (Nat.le_succ n)

theorem natDigits_digits (n : Nat) : ∀ c ∈ natDigits n, c.isDigit = true :=
  fun c hc => natDigitsAux_digits (n + 1) n c hc

theorem natDigits_val (n : Nat) (acc : Nat) :
    digitsVal (natDigits n) acc = acc * 10 ^ (natDigits n).length + n :=
  natDigitsAux_val (n + 1) n acc (nat_lt_ten_pow_succ n)

theorem natDigits_head (n : Nat) : ∃ d l, natDigits n = digitChar d :: l :=
  natDigitsAux_head (n + 1) n (Nat.succ_pos n)

theorem natDigits_ne_nil (n : Nat) : natDigits n ≠ [] := by
  obtain ⟨d, l, hd⟩ := natDigits_head n
  simp [hd]

theorem padDigits_digits (e : Nat) : ∀ fp c, c ∈ padDigits e fp → c.isDigit = true := by
  induction e with
  | zero => intro fp c hc; simp [padDigits] at hc
  | succ e ih =>
    intro fp c hc
    simp only [padDigits, List.mem_cons] at hc
    rcases hc with hc | hc
    · subst hc; exact digitChar_isDigit _
    · exact ih _ c hc

theorem padDigits_length (e : Nat) : ∀ fp, (padDigits e fp).length = e := by
  induction e with
  | zero => intro fp; rfl
  | succ e ih => intro fp; simp [padDigits, ih]

theorem padDigits_val (e : Nat) :
    ∀ fp acc, fp < 10 ^ e → digitsVal (padDigits e fp) acc = acc * 10 ^ e + fp := by
  induction e with
  | zero =>
    intro fp acc h
    have hfp : fp = 0 := by simpa using h
    subst hfp
    simp [padDigits, digitsVal]
  | succ e ih =>
    intro fp acc h
    simp only [padDigits, digitsVal]
    rw [digitVal_digitChar (fp / 10 ^ e) (by
      have hp : 0 < 10 ^ e := Nat.pos_pow_of_pos e (by norm_num)
      rw [pow_succ, mul_comm] at h
      exact (Nat.div_lt_iff_lt_mul hp).mpr h)]
    rw [ih (fp % 10 ^ e) _ (Nat.mod_lt _ (Nat.pos_pow_of_pos e (by norm_num)))]
    have hmod := Nat.div_add_mod fp (10 ^ e)
    rw [pow_succ]
    generalize (10 : Nat) ^ e = P at *
    ring_nf
    nlinarith [hmod]

theorem nextOk_split (rest : List Char) (h : nextOk rest = true) :
    headDigit rest = false ∧ headIs rest '.' = false := by
  cases rest with
  | nil => exact ⟨rfl, rfl⟩
  | cons c l =>
    simp only [nextOk, Bool.not_eq_true', Bool.or_eq_false_iff] at h
    simp [headDigit, headIs, h.1, h.2]

theorem parseDigitsAux_natDigits (n : Nat) (rest : List Char) (hd : headDigit rest = false) :
    parseDigitsAux 0 (natDigits n ++ rest) = (n, (natDigits n).length, rest) := by
  rw [parseDigitsAux_append _ 0 rest (natDigits_digits _) hd, natDigits_val]
  simp

theorem parseDigitsAux_padDigits (e fp : Nat) (hfp : fp < 10 ^ e) (rest : List Char)
    (hd : headDigit rest = false) :
    parseDigitsAux 0 (padDigits e fp ++ rest) = (fp, e, rest) := by
  rw [parseDigitsAux_append _ 0 rest (padDigits_digits e fp) hd,
    padDigits_val e fp 0 hfp, padDigits_length]
  simp

theorem natDigits_headIs_minus (n : Nat) (rest : List Char) :
    headIs (natDigits n ++ rest) '-' = false := by
  obtain ⟨d, dl, hnd⟩ := natDigits_head n
  rw [hnd]
  simp [headIs, digitChar_ne_minus d]

theorem natDigits_length_pos (n : Nat) : (natDigits n).length ≠ 0 := by
  have := natDigits_ne_nil n
  cases h : natDigits n with
  | nil => exact absurd h this
  | cons c l => simp [h]

theorem parseNumber_unsigned_nofrac (l : List Char) (n len : Nat) (rest : List Char)
    (hneg : headIs l '-' = false) (hp : parseDigitsAux 0 l = (n, len, rest))
    (hlen : len ≠ 0) (hdot : headIs rest '.' = false) :
    parseNumber l = some (.num (n : Int) 0, rest) := by
  unfold parseNumber
  simp only [hneg, Bool.false_eq_true, if_false, hp, intOfSign]
  simp [hlen, hdot]

theorem parseNumber_unsigned_frac (l : List Char) (n len : Nat) (rest2 : List Char)
    (fp e : Nat) (rest : List Char)
    (hneg : headIs l '-' = false) (hp : parseDigitsAux 0 l = (n, len, '.' :: rest2))
    (hlen : len ≠ 0) (hp2 : parseDigitsAux 0 rest2 = (fp, e, rest)) (he : e ≠ 0) :
    parseNumber l = some (.num ((n * 10 ^ e + fp : Nat) : Int) e, rest) := by
  unfold parseNumber
  simp only [hneg, Bool.false_eq_true, if_false, hp, intOfSign]
  simp [hlen, headIs, hp2, he]

theorem parseNumber_signed_nofrac (l : List Char) (n len : Nat) (rest : List Char)
    (hp : parseDigitsAux 0 l = (n, len, rest))
    (hlen : len ≠ 0) (hdot : headIs rest '.' = false) :
    parseNumber ('-' :: l) = some (.num (-(n : Int)) 0, rest) := by
  unfold parseNumber
  have hneg : headIs ('-' :: l) '-' = true := by simp [headIs]
  simp only [hneg, if_true, List.tail_cons, hp, intOfSign]
  simp [hlen, hdot]

theorem parseNumber_signed_frac (l : List Char) (n len : Nat) (rest2 : List Char)
    (fp e : Nat) (rest : List Char)
    (hp : parseDigitsAux 0 l = (n, len, '.' :: rest2))
    (hlen : len ≠ 0) (hp2 : parseDigitsAux 0 rest2 = (fp, e, rest)) (he : e ≠ 0) :
    parseNumber ('-' :: l) = some (.num (-((n * 10 ^ e + fp : Nat) : Int)) e, rest) := by
  unfold parseNumber
  have hneg : headIs ('-' :: l) '-' = true := by simp [headIs]
  simp only [hneg, if_true, List.tail_cons, hp, intOfSign]
  simp [hlen, headIs, hp2, he]

theorem parseNumber_render (m : Int) (e : Nat) (rest : List Char)
    (hrest : nextOk rest = true) :
    parseNumber (renderNum m e ++ rest) = some (.num m e, rest) := by
  obtain ⟨hd, hdot⟩ := nextOk_split rest hrest
  rcases Nat.eq_zero_or_pos e with he | he
  · subst he
    by_cases hm : m < 0
    · have hren : renderNum m 0 ++ rest = '-' :: (natDigits m.natAbs ++ rest) := by
        simp [renderNum, hm]
      rw [hren, parseNumber_signed_nofrac _ _ _ _
        (parseDigitsAux_natDigits m.natAbs rest hd) (natDigits_length_pos m.natAbs) hdot]
      rw [show -((m.natAbs : Nat) : Int) = m by omega]
    · have hren : renderNum m 0 ++ rest = natDigits m.natAbs ++ rest := by
        simp [renderNum, hm]
      rw [hren, parseNumber_unsigned_nofrac _ _ _ _
        (natDigits_headIs_minus m.natAbs rest)
        (parseDigitsAux_natDigits m.natAbs rest hd) (natDigits_length_pos m.natAbs) hdot]
      rw [show ((m.natAbs : Nat) : Int) = m by omega]
  · have hfp : m.natAbs % 10 ^ e < 10 ^ e :=
      Nat.mod_lt _ (Nat.pos_pow_of_pos e (by norm_num))
    have hp1 : parseDigitsAux 0 (natDigits (m.natAbs / 10 ^ e) ++
        ('.' :: (padDigits e (m.natAbs % 10 ^ e) ++ rest))) =
        (m.natAbs / 10 ^ e, (natDigits (m.natAbs / 10 ^ e)).length,
          '.' :: (padDigits e (m.natAbs % 10 ^ e) ++ rest)) :=
      parseDigitsAux_natDigits _ _ rfl
    have hp2 : parseDigitsAux 0 (padDigits e (m.natAbs % 10 ^ e) ++ rest) =
        (m.natAbs % 10 ^ e, e, rest) :=
      parseDigitsAux_padDigits e _ hfp rest hd
    have hval := Nat.div_add_mod' m.natAbs (10 ^ e)
    have he0 : ¬ e = 0 := by omega
    by_cases hm : m < 0
    · have hren : renderNum m e ++ rest = '-' :: (natDigits (m.natAbs / 10 ^ e) ++
          ('.' :: (padDigits e (m.natAbs % 10 ^ e) ++ rest))) := by
        simp only [renderNum, he0, if_false, hm, if_true, ite_false, ite_true]
        simp [List.append_assoc, List.cons_append]
      rw [hren, parseNumber_signed_frac _ _ _ _ _ _ _ hp1
        (natDigits_length_pos _) hp2 he0]
      rw [show -((m.natAbs / 10 ^ e * 10 ^ e + m.natAbs % 10 ^ e : Nat) : Int) = m by
        rw [hval]; omega]
    · have hren : renderNum m e ++ rest = natDigits (m.natAbs / 10 ^ e) ++
          ('.' :: (padDigits e (m.natAbs % 10 ^ e) ++ rest)) := by
        simp only [renderNum, he0, if_false, hm, if_true, ite_false, ite_true]
        simp [List.append_assoc, List.cons_append]
      rw [hren, parseNumber_unsigned_frac _ _ _ _ _ _ _
        (natDigits_headIs_minus _ _) hp1 (natDigits_length_pos _) hp2 he0]
      rw [show ((m.natAbs / 10 ^ e * 10 ^ e + m.natAbs % 10 ^ e : Nat) : Int) = m by
        rw [hval]; omega]

theorem stringMk_data (s : String) : String.mk s.data = s := rfl

theorem skipWs_cons_nows (c : Char) (l : List Char) (h : isWsChar c = false) :
    skipWs (c :: l) = c :: l := by
  simp [skipWs, h]

theorem parseStringBody_render (cs : List Char) :
    ∀ rest, cs.all cleanChar = true →
      parseStringBody (escapeChars cs ++ (quoteC :: rest)) = some (cs, rest) := by
  induction cs with
  | nil =>
    intro rest _
    show parseStringBody (escapeChars [] ++ (quoteC :: rest)) = some ([], rest)
    rw [show escapeChars [] ++ (quoteC :: rest) = quoteC :: rest from rfl]
    simp [parseStringBody]
  | cons c cs ih =>
    intro rest hall
    simp only [List.all_cons, Bool.and_eq_true] at hall
    obtain ⟨hc, hcs⟩ := hall
    have hq : ¬bslashC = quoteC := by decide
    by_cases h1 : c = quoteC
    · subst h1
      have he : escapeChars (quoteC :: cs) ++ (quoteC :: rest) =
          bslashC :: (quoteC :: (escapeChars cs ++ (quoteC :: rest))) := by
        simp [escapeChars, escChar]
      rw [he]
      simp [parseStringBody, parseStringEsc, unescapeChar, hq, ih rest hcs]
    · by_cases h2 : c = bslashC
      · subst h2
        have he : escapeChars (bslashC :: cs) ++ (quoteC :: rest) =
            bslashC :: (bslashC :: (escapeChars cs ++ (quoteC :: rest))) := by
          simp [escapeChars, escChar, (by decide : ¬bslashC = quoteC)]
        rw [he]
        simp [parseStringBody, parseStringEsc, unescapeChar, hq, ih rest hcs]
      · by_cases h3 : c = '\n'
        · subst h3
          have he : escapeChars ('\n' :: cs) ++ (quoteC :: rest) =
              bslashC :: ('n' :: (escapeChars cs ++ (quoteC :: rest))) := by
            simp [escapeChars, escChar, (by decide : ¬('\n' : Char) = quoteC),
              (by decide : ¬('\n' : Char) = bslashC)]
          rw [he]
          simp [parseStringBody, parseStringEsc, unescapeChar, hq,
            (by decide : ¬('n' : Char) = quoteC), (by decide : ¬('n' : Char) = bslashC),
            (by decide : ¬('n' : Char) = '/'), ih rest hcs]
        · by_cases h4 : c = '\t'
          · subst h4
            have he : escapeChars ('\t' :: cs) ++ (quoteC :: rest) =
                bslashC :: ('t' :: (escapeChars cs ++ (quoteC :: rest))) := by
              simp [escapeChars, escChar, (by decide : ¬('\t' : Char) = quoteC),
                (by decide : ¬('\t' : Char) = bslashC), (by decide : ¬('\t' : Char) = '\n')]
            rw [he]
            simp [parseStringBody, parseStringEsc, unescapeChar, hq,
              (by decide : ¬('t' : Char) = quoteC), (by decide : ¬('t' : Char) = bslashC),
              (by decide : ¬('t' : Char) = '/'), (by decide : ¬('t' : Char) = 'n'),
              ih rest hcs]
          · by_cases h5 : c = '\r'
            · subst h5
              have he : escapeChars ('\r' :: cs) ++ (quoteC :: rest) =
                  bslashC :: ('r' :: (escapeChars cs ++ (quoteC :: rest))) := by
                simp [escapeChars, escChar, (by decide : ¬('\r' : Char) = quoteC),
                  (by decide : ¬('\r' : Char) = bslashC),
                  (by decide : ¬('\r' : Char) = '\n'), (by decide : ¬('\r' : Char) = '\t')]
              rw [he]
              simp [parseStringBody, parseStringEsc, unescapeChar, hq,
                (by decide : ¬('r' : Char) = quoteC), (by decide : ¬('r' : Char) = bslashC),
                (by decide : ¬('r' : Char) = '/'), (by decide : ¬('r' : Char) = 'n'),
                (by decide : ¬('r' : Char) = 't'), ih rest hcs]
            · have h32 : 32 ≤ c.toNat := by
                simp only [cleanChar, Bool.or_eq_true, decide_eq_true_eq] at hc
                rcases hc with ((h32 | hx) | hx) | hx
                · exact h32
                · exact absurd hx h3
                · exact absurd hx h4
                · exact absurd hx h5
              have he : escapeChars (c :: cs) ++ (quoteC :: rest) =
                  c :: (escapeChars cs ++ (quoteC :: rest)) := by
                simp [escapeChars, escChar, h1, h2, h3, h4, h5]
              rw [he]
              simp [parseStringBody, h1, h2, h32, ih rest hcs]

theorem notSpecialHead_unpack (c : Char) (h : notSpecialHead c = true) :
    isWsChar c = false ∧ ¬c = quoteC ∧ ¬c = '[' ∧ ¬c = lbraceC ∧ ¬c = 'n' ∧ ¬c = 't'
      ∧ ¬c = 'f' ∧ ¬c = ']' ∧ ¬c = rbraceC := by
  simp only [notSpecialHead, Bool.and_eq_true, Bool.not_eq_true', decide_eq_false_iff_not]
    at h
  exact ⟨h.1.1.1.1.1.1.1.1, h.1.1.1.1.1.1.1.2, h.1.1.1.1.1.1.2, h.1.1.1.1.1.2,
    h.1.1.1.1.2, h.1.1.1.2, h.1.1.2, h.1.2, h.2⟩

theorem minus_notSpecialHead : notSpecialHead '-' = true := by decide

theorem renderNum_head (m : Int) (e : Nat) :
    ∃ c l, renderNum m e = c :: l ∧ notSpecialHead c = true := by
  by_cases hm : m < 0
  · by_cases he : e = 0
    · exact ⟨'-', natDigits m.natAbs, by simp [renderNum, hm, he], minus_notSpecialHead⟩
    · exact ⟨'-', natDigits (m.natAbs / 10 ^ e) ++ '.' :: padDigits e (m.natAbs % 10 ^ e),
        by simp [renderNum, hm, he], minus_notSpecialHead⟩
  · by_cases he : e = 0
    · obtain ⟨d, l, hd⟩ := natDigits_head m.natAbs
      exact ⟨digitChar d, l, by simp [renderNum, hm, he, hd], digitChar_notSpecialHead d⟩
    · obtain ⟨d, l, hd⟩ := natDigits_head (m.natAbs / 10 ^ e)
      exact ⟨digitChar d, l ++ '.' :: padDigits e (m.natAbs % 10 ^ e),
        by simp [renderNum, hm, he, hd], digitChar_notSpecialHead d⟩

theorem renderV_head_facts (v : JsonValue) :
    ∃ c l, renderV v = c :: l ∧ isWsChar c = false ∧ ¬c = ']' ∧ ¬c = rbraceC := by
  cases v with
  | num m e =>
    obtain ⟨c, l, hcl, hns⟩ := renderNum_head m e
    obtain ⟨hws, _, _, _, _, _, _, hb1, hb2⟩ := notSpecialHead_unpack c hns
    exact ⟨c, l, hcl, hws, hb1, hb2⟩
  | bool b =>
    cases b
    all_goals refine ⟨_, _, rfl, ?_, ?_, ?_⟩
    all_goals decide
  | arr xs =>
    cases xs
    all_goals refine ⟨_, _, rfl, ?_, ?_, ?_⟩
    all_goals decide
  | obj kvs =>
    cases kvs
    all_goals refine ⟨_, _, rfl, ?_, ?_, ?_⟩
    all_goals decide
  | null =>
    refine ⟨_, _, rfl, ?_, ?_, ?_⟩
    all_goals decide
  | str s =>
    refine ⟨_, _, rfl, ?_, ?_, ?_⟩
    all_goals decide

theorem renderField_head (k : String) (v : JsonValue) :
    ∃ c l, renderField (k, v) = c :: l ∧ isWsChar c = false ∧ ¬c = ']' ∧ ¬c = rbraceC :=
  ⟨quoteC, _, rfl, by decide, by decide, by decide⟩

theorem nextOk_renderElemsRest (xs : List JsonValue) (rest : List Char) :
    nextOk (renderElemsRest xs ++ rest) = true := by
  cases xs <;> rfl

theorem nextOk_renderFieldsRest (fs : List (String × JsonValue)) (rest : List Char) :
    nextOk (renderFieldsRest fs ++ rest) = true := by
  cases fs <;> rfl

theorem parseValue_quote (f : Nat) (l : List Char) :
    parseValue (f + 1) (quoteC :: l) =
      (parseStringBody l).map (fun p => (.str (String.mk p.1), p.2)) := by
  simp only [parseValue]
  rw [skipWs_cons_nows _ _ (by decide)]
  simp

theorem parseValue_null_lit (f : Nat) (rest : List Char) :
    parseValue (f + 1) ('n' :: 'u' :: 'l' :: 'l' :: rest) = some (.null, rest) := by
  simp only [parseValue]
  rw [skipWs_cons_nows _ _ (by decide)]
  simp [expectChars, (by decide : ¬('n' : Char) = quoteC), (by decide : ¬('n' : Char) = '['),
    (by decide : ¬('n' : Char) = lbraceC)]

theorem parseValue_true_lit (f : Nat) (rest : List Char) :
    parseValue (f + 1) ('t' :: 'r' :: 'u' :: 'e' :: rest) = some (.bool true, rest) := by
  simp only [parseValue]
  rw [skipWs_cons_nows _ _ (by decide)]
  simp [expectChars, (by decide : ¬('t' : Char) = quoteC), (by decide : ¬('t' : Char) = '['),
    (by decide : ¬('t' : Char) = lbraceC), (by decide : ¬('t' : Char) = 'n')]

theorem parseValue_false_lit (f : Nat) (rest : List Char) :
    parseValue (f + 1) ('f' :: 'a' :: 'l' :: 's' :: 'e' :: rest) = some (.bool false, rest) := by
  simp only [parseValue]
  rw [skipWs_cons_nows _ _ (by decide)]
  simp [expectChars, (by decide : ¬('f' : Char) = quoteC), (by decide : ¬('f' : Char) = '['),
    (by decide : ¬('f' : Char) = lbraceC), (by decide : ¬('f' : Char) = 'n'),
    (by decide : ¬('f' : Char) = 't')]

theorem parseValue_arr_empty (f : Nat) (rest : List Char) :
    parseValue (f + 1) ('[' :: ']' :: rest) = some (.arr [], rest) := by
  simp only [parseValue]
  rw [skipWs_cons_nows _ _ (by decide)]
  simp [skipWs, headIs, (by decide : ¬('[' : Char) = quoteC),
    (by decide : isWsChar ']' = false)]

theorem parseValue_obj_empty (f : Nat) (rest : List Char) :
    parseValue (f + 1) (lbraceC :: rbraceC :: rest) = some (.obj [], rest) := by
  simp only [parseValue]
  rw [skipWs_cons_nows _ _ (by decide)]
  simp [skipWs, headIs, (by decide : ¬lbraceC = quoteC), (by decide : ¬lbraceC = '['),
    (by decide : isWsChar rbraceC = false)]

theorem parseValue_arr_step (f : Nat) (l : List Char) (c : Char) (l2 : List Char)
    (hskip : skipWs l = c :: l2) (hc : ¬c = ']') :
    parseValue (f + 1) ('[' :: l) = (parseElems f l).map (fun p => (.arr p.1, p.2)) := by
  simp only [parseValue]
  rw [skipWs_cons_nows _ _ (by decide)]
  simp [hskip, headIs, hc, (by decide : ¬('[' : Char) = quoteC)]

theorem parseValue_obj_step (f : Nat) (l : List Char) (c : Char) (l2 : List Char)
    (hskip : skipWs l = c :: l2) (hc : ¬c = rbraceC) :
    parseValue (f + 1) (lbraceC :: l) = (parseFields f l).map (fun p => (.obj p.1, p.2)) := by
  simp only [parseValue]
  rw [skipWs_cons_nows _ _ (by decide)]
  simp [hskip, headIs, hc, (by decide : ¬lbraceC = quoteC), (by decide : ¬lbraceC = '[')]

theorem parseValue_number_step (f : Nat) (c : Char) (l : List Char)
    (h : notSpecialHead c = true) :
    parseValue (f + 1) (c :: l) = parseNumber (c :: l) := by
  obtain ⟨hws, h1, h2, h3, h4, h5, h6, _, _⟩ := notSpecialHead_unpack c h
  simp only [parseValue]
  rw [skipWs_cons_nows _ _ hws]
  simp [h1, h2, h3, h4, h5, h6]

theorem parseFields_quote (f : Nat) (l : List Char) :
    parseFields (f + 1) (quoteC :: l) =
      (parseStringBody l).bind (fun pk =>
        if headIs (skipWs pk.2) ':' then
          (parseValue f (skipWs pk.2).tail).bind (fun pv =>
            if headIs (skipWs pv.2) ',' then
              (parseFields f (skipWs pv.2).tail).map
                (fun q => ((String.mk pk.1, pv.1) :: q.1, q.2))
            else if headIs (skipWs pv.2) rbraceC then
              some ([(String.mk pk.1, pv.1)], (skipWs pv.2).tail)
            else none)
        else none) := by
  simp only [parseFields]
  rw [skipWs_cons_nows _ _ (by decide)]
  simp

mutual

theorem parseValue_render : ∀ (v : JsonValue) (fuel : Nat) (rest : List Char),
    cleanV v = true → needV v ≤ fuel → nextOk rest = true →
    parseValue fuel (renderV v ++ rest) = some (v, rest)
  | .null, fuel, rest, _, hfuel, _ => by
    have h1 : 1 ≤ fuel := by simpa [needV] using hfuel
    obtain ⟨f, rfl⟩ : ∃ f, fuel = f + 1 := ⟨fuel - 1, by omega⟩
    exact parseValue_null_lit f rest
  | .bool true, fuel, rest, _, hfuel, _ => by
    have h1 : 1 ≤ fuel := by simpa [needV] using hfuel
    obtain ⟨f, rfl⟩ : ∃ f, fuel = f + 1 := ⟨fuel - 1, by omega⟩
    exact parseValue_true_lit f rest
  | .bool false, fuel, rest, _, hfuel, _ => by
    have h1 : 1 ≤ fuel := by simpa [needV] using hfuel
    obtain ⟨f, rfl⟩ : ∃ f, fuel = f + 1 := ⟨fuel - 1, by omega⟩
    exact parseValue_false_lit f rest
  | .num m e, fuel, rest, _, hfuel, hrest => by
    have h1 : 1 ≤ fuel := by simpa [needV] using hfuel
    obtain ⟨f, rfl⟩ : ∃ f, fuel = f + 1 := ⟨fuel - 1, by omega⟩
    obtain ⟨c, l0, hrn, hns⟩ := renderNum_head m e
    have hsplit : renderV (.num m e) ++ rest = c :: (l0 ++ rest) := by
      simp [renderV, hrn]
    rw [hsplit, parseValue_number_step f c _ hns,
      show c :: (l0 ++ rest) = renderNum m e ++ rest by simp [hrn]]
    exact parseNumber_render m e rest hrest
  | .str s, fuel, rest, hclean, hfuel, _ => by
    have h1 : 1 ≤ fuel := by simpa [needV] using hfuel
    obtain ⟨f, rfl⟩ : ∃ f, fuel = f + 1 := ⟨fuel - 1, by omega⟩
    have hsplit : renderV (.str s) ++ rest =
        quoteC :: (escapeChars s.data ++ (quoteC :: rest)) := by
      simp [renderV]
    rw [hsplit, parseValue_quote,
      parseStringBody_render s.data rest (by simpa [cleanV] using hclean)]
    simp [stringMk_data]
  | .arr [], fuel, rest, _, hfuel, _ => by
    have h1 : 1 ≤ fuel := by simp only [needV, needL] at hfuel; omega
    obtain ⟨f, rfl⟩ : ∃ f, fuel = f + 1 := ⟨fuel - 1, by omega⟩
    exact parseValue_arr_empty f rest
  | .arr (x :: xs), fuel, rest, hclean, hfuel, hrest => by
    simp only [cleanV, cleanL, Bool.and_eq_true] at hclean
    obtain ⟨hx, hxs⟩ := hclean
    simp only [needV] at hfuel
    obtain ⟨f, rfl⟩ : ∃ f, fuel = f + 1 := ⟨fuel - 1, by omega⟩
    have hf : needL (x :: xs) ≤ f := by omega
    obtain ⟨c, l0, hh, hws, hb1, _⟩ := renderV_head_facts x
    have hsplit : renderV (.arr (x :: xs)) ++ rest =
        '[' :: (renderV x ++ (renderElemsRest xs ++ rest)) := by
      simp [renderV]
    rw [hsplit]
    have hskip : skipWs (renderV x ++ (renderElemsRest xs ++ rest)) =
        c :: (l0 ++ (renderElemsRest xs ++ rest)) := by
      rw [hh, List.cons_append, skipWs_cons_nows _ _ hws]
    rw [parseValue_arr_step f _ c _ hskip hb1,
      parseElems_render x xs f rest hx hxs hf hrest]
    rfl
  | .obj [], fuel, rest, _, hfuel, _ => by
    have h1 : 1 ≤ fuel := by simp only [needV, needF] at hfuel; omega
    obtain ⟨f, rfl⟩ : ∃ f, fuel = f + 1 := ⟨fuel - 1, by omega⟩
    exact parseValue_obj_empty f rest
  | .obj ((k, v) :: fs), fuel, rest, hclean, hfuel, hrest => by
    simp only [cleanV, cleanF, Bool.and_eq_true] at hclean
    obtain ⟨⟨hk, hv⟩, hfs⟩ := hclean
    simp only [needV] at hfuel
    obtain ⟨f, rfl⟩ : ∃ f, fuel = f + 1 := ⟨fuel - 1, by omega⟩
    have hf : needF ((k, v) :: fs) ≤ f := by omega
    obtain ⟨c, l0, hh, hws, _, hb2⟩ := renderField_head k v
    have hsplit : renderV (.obj ((k, v) :: fs)) ++ rest =
        lbraceC :: (renderField (k, v) ++ (renderFieldsRest fs ++ rest)) := by
      simp [renderV]
    rw [hsplit]
    have hskip : skipWs (renderField (k, v) ++ (renderFieldsRest fs ++ rest)) =
        c :: (l0 ++ (renderFieldsRest fs ++ rest)) := by
      rw [hh, List.cons_append, skipWs_cons_nows _ _ hws]
    rw [parseValue_obj_step f _ c _ hskip hb2,
      parseFields_render k v fs f rest hk hv hfs hf hrest]
    rfl
termination_by v => sizeOf v

theorem parseElems_render : ∀ (x : JsonValue) (xs : List JsonValue) (fuel : Nat)
    (rest : List Char), cleanV x = true → cleanL xs = true →
    needL (x :: xs) ≤ fuel → nextOk rest = true →
    parseElems fuel (renderV x ++ (renderElemsRest xs ++ rest)) = some (x :: xs, rest)
  | x, [], fuel, rest, hx, _, hfuel, hrest => by
    have h2 : 1 + max (needV x) (needL []) ≤ fuel := by simpa [needL] using hfuel
    obtain ⟨f, rfl⟩ : ∃ f, fuel = f + 1 := ⟨fuel - 1, by omega⟩
    simp only [parseElems]
    rw [parseValue_render x f (renderElemsRest [] ++ rest) hx (by omega)
      (nextOk_renderElemsRest [] rest)]
    simp [renderElemsRest, Option.bind, skipWs, headIs,
      (by decide : isWsChar ']' = false)]
  | x, y :: ys, fuel, rest, hx, hxs, hfuel, hrest => by
    have h2 : 1 + max (needV x) (needL (y :: ys)) ≤ fuel := by simpa [needL] using hfuel
    obtain ⟨f, rfl⟩ : ∃ f, fuel = f + 1 := ⟨fuel - 1, by omega⟩
    simp only [parseElems]
    rw [parseValue_render x f (renderElemsRest (y :: ys) ++ rest) hx (by omega)
      (nextOk_renderElemsRest (y :: ys) rest)]
    simp only [cleanL, Bool.and_eq_true] at hxs
    obtain ⟨hy, hys⟩ := hxs
    have hstep : renderElemsRest (y :: ys) ++ rest =
        ',' :: (renderV y ++ (renderElemsRest ys ++ rest)) := by
      simp [renderElemsRest]
    rw [hstep]
    simp only [Option.bind, skipWs_cons_nows _ _ (by decide : isWsChar ',' = false),
      List.tail_cons]
    rw [show headIs (',' :: (renderV y ++ (renderElemsRest ys ++ rest))) ',' = true from rfl]
    simp only [if_true]
    rw [parseElems_render y ys f rest hy hys (by omega) hrest]
    rfl
termination_by x xs => sizeOf (x :: xs)

theorem parseFields_render : ∀ (k : String) (v : JsonValue)
    (fs : List (String × JsonValue)) (fuel : Nat) (rest : List Char),
    k.data.all cleanChar = true → cleanV v = true → cleanF fs = true →
    needF ((k, v) :: fs) ≤ fuel → nextOk rest = true →
    parseFields fuel (renderField (k, v) ++ (renderFieldsRest fs ++ rest)) =
      some ((k, v) :: fs, rest)
  | k, v, [], fuel, rest, hk, hv, _, hfuel, hrest => by
    have h2 : 1 + max (needV v) (needF []) ≤ fuel := by simpa [needF] using hfuel
    obtain ⟨f, rfl⟩ : ∃ f, fuel = f + 1 := ⟨fuel - 1, by omega⟩
    have hsplit : renderField (k, v) ++ (renderFieldsRest [] ++ rest) =
        quoteC :: (escapeChars k.data ++
          (quoteC :: (':' :: (renderV v ++ (renderFieldsRest [] ++ rest))))) := by
      simp [renderField]
    rw [hsplit, parseFields_quote, parseStringBody_render k.data _ hk]
    simp only [Option.bind, skipWs_cons_nows _ _ (by decide : isWsChar ':' = false),
      List.tail_cons]
    rw [show headIs (':' :: (renderV v ++ (renderFieldsRest [] ++ rest))) ':'
      = true from rfl]
    simp only [if_true]
    rw [parseValue_render v f (renderFieldsRest [] ++ rest) hv (by omega)
      (nextOk_renderFieldsRest [] rest)]
    simp [renderFieldsRest, Option.bind, skipWs, headIs, stringMk_data,
      (by decide : isWsChar rbraceC = false), (by decide : ¬rbraceC = ',')]
  | k, v, (k2, v2) :: gs, fuel, rest, hk, hv, hfs, hfuel, hrest => by
    have h2 : 1 + max (needV v) (needF ((k2, v2) :: gs)) ≤ fuel := by
      simpa [needF] using hfuel
    obtain ⟨f, rfl⟩ : ∃ f, fuel = f + 1 := ⟨fuel - 1, by omega⟩
    have hsplit : renderField (k, v) ++ (renderFieldsRest ((k2, v2) :: gs) ++ rest) =
        quoteC :: (escapeChars k.data ++
          (quoteC :: (':' :: (renderV v ++
            (renderFieldsRest ((k2, v2) :: gs) ++ rest))))) := by
      simp [renderField]
    rw [hsplit, parseFields_quote, parseStringBody_render k.data _ hk]
    simp only [Option.bind, skipWs_cons_nows _ _ (by decide : isWsChar ':' = false),
      List.tail_cons]
    rw [show headIs (':' :: (renderV v ++ (renderFieldsRest ((k2, v2) :: gs) ++ rest))) ':'
      = true from rfl]
    simp only [if_true]
    rw [parseValue_render v f (renderFieldsRest ((k2, v2) :: gs) ++ rest) hv (by omega)
      (nextOk_renderFieldsRest ((k2, v2) :: gs) rest)]
    simp only [cleanF, Bool.and_eq_true] at hfs
    obtain ⟨⟨hk2, hv2⟩, hgs⟩ := hfs
    have hstep : renderFieldsRest ((k2, v2) :: gs) ++ rest =
        ',' :: (renderField (k2, v2) ++ (renderFieldsRest gs ++ rest)) := by
      simp [renderFieldsRest]
    rw [hstep]
    simp only [Option.bind, skipWs_cons_nows _ _ (by decide : isWsChar ',' = false),
      List.tail_cons]
    rw [show headIs (',' :: (renderField (k2, v2) ++ (renderFieldsRest gs ++ rest))) ','
      = true from rfl]
    simp only [if_true]
    rw [parseFields_render k2 v2 gs f rest hk2 hv2 hgs (by omega) hrest]
    simp [stringMk_data]
termination_by k v fs => sizeOf ((k, v) :: fs)

end

theorem renderElemsRest_length_pos (xs : List JsonValue) :
    1 ≤ (renderElemsRest xs).length := by
  cases xs <;> simp [renderElemsRest]

theorem renderFieldsRest_length_pos (fs : List (String × JsonValue)) :
    1 ≤ (renderFieldsRest fs).length := by
  cases fs <;> simp [renderFieldsRest]

mutual

theorem needV_le_render : ∀ v : JsonValue, needV v ≤ (renderV v).length + 1
  | .null => by simp [needV, renderV]
  | .bool true => by simp [needV, renderV]
  | .bool false => by simp [needV, renderV]
  | .num m e => by simp [needV]
  | .str s => by simp [needV]
  | .arr [] => by simp [needV, needL, renderV]
  | .arr (x :: xs) => by
    have h := needL_le_render (x :: xs)
    simp only [renderElemsRest, List.length_cons, List.length_append] at h
    simp only [needV, renderV, List.length_cons, List.length_append]
    omega
  | .obj [] => by simp [needV, needF, renderV]
  | .obj ((k, v) :: fs) => by
    have h := needF_le_render ((k, v) :: fs)
    simp only [renderFieldsRest, List.length_cons, List.length_append] at h
    simp only [needV, renderV, List.length_cons, List.length_append]
    omega

theorem needL_le_render : ∀ xs : List JsonValue, needL xs ≤ (renderElemsRest xs).length
  | [] => by simp [needL, renderElemsRest]
  | x :: xs => by
    have h1 := needV_le_render x
    have h2 := needL_le_render xs
    have h3 := renderElemsRest_length_pos xs
    simp only [needL, renderElemsRest, List.length_cons, List.length_append]
    omega

theorem needF_le_render : ∀ fs : List (String × JsonValue),
    needF fs ≤ (renderFieldsRest fs).length
  | [] => by simp [needF, renderFieldsRest]
  | (k, v) :: fs => by
    have h1 := needV_le_render v
    have h2 := needF_le_render fs
    have h3 := renderFieldsRest_length_pos fs
    simp only [needF, renderFieldsRest, renderField, List.length_cons, List.length_append]
    omega

end

theorem jsonLoads_render (v : JsonValue) (h : cleanV v = true) :
    jsonLoads (renderJson v) = some v := by
  unfold jsonLoads renderJson
  have hp : parseValue ((renderV v).length + 1) (renderV v ++ []) = some (v, []) :=
    parseValue_render v _ [] h (by
      have := needV_le_render v
      omega) rfl
  rw [List.append_nil] at hp
  rw [show (String.mk (renderV v)).length = (renderV v).length from rfl,
    show (String.mk (renderV v)).data = renderV v from rfl, hp]
  simp [skipWs]

theorem safe_json_load_of_jsonLoads (cap : Option (String → Option String)) (s : String)
    (v : JsonValue) (h : jsonLoads s = some v) : safe_json_load cap s = some v := by
  unfold safe_json_load
  rw [h]

/-- Claim C3: for every string on which strict parsing succeeds,
`safe_json_load` returns exactly the strictly parsed structure regardless
of shape (object, array, or scalar), for any state of the repair
capability; and serializing any JSON value whose strings round-trip and
re-loading it through `safe_json_load` is the identity. -/
theorem safe_json_load_strict_roundtrip :
    (∀ cap s v, jsonLoads s = some v → safe_json_load cap s = some v) ∧
    (∀ cap v, cleanV v = true → safe_json_load cap (renderJson v) = some v) :=
  ⟨safe_json_load_of_jsonLoads,
   fun cap v hv => safe_json_load_of_jsonLoads cap _ v (jsonLoads_render v hv)⟩

theorem safe_json_load_strict_roundtrip_witness :
    safe_json_load none "[1, 2]" = some (.arr [.num 1 0, .num 2 0]) ∧
    safe_json_load none (renderJson (.obj [("a", .num 63 2), ("b", .arr [.str "T", .null])]))
      = some (.obj [("a", .num 63 2), ("b", .arr [.str "T", .null])]) :=
  ⟨safe_json_load_strict_roundtrip.1 none "[1, 2]" _ rfl,
   safe_json_load_strict_roundtrip.2 none _ (by decide)⟩
